import Mathlib

/-
Verification of the leave-management canister (src/src/index.ts).

The TypeScript source is shallowly embedded below. Numbers crossing the
Candid boundary are float64 but every value the program manipulates is an
integral number of milliseconds or days (well below 2^53), so they are
modelled as `Int`. The two `StableBTreeMap` stores are modelled as
association lists with insert-or-replace semantics. Nondeterministic
inputs (`uuidv4()`, `ic.time()`, the wall clock read by `new Date()`) are
passed in explicitly through an `Env` record.
-/

namespace LeaveCanister

/-! ## Identifier validation (the `uuid` package's `validate`) -/

def isHexChar (c : Char) : Bool :=
  (decide ('0' ≤ c) && decide (c ≤ '9')) ||
  (decide ('a' ≤ c) && decide (c ≤ 'f')) ||
  (decide ('A' ≤ c) && decide (c ≤ 'F'))

def isVersionChar (c : Char) : Bool :=
  decide ('1' ≤ c) && decide (c ≤ '5')

def isVariantChar (c : Char) : Bool :=
  c == '8' || c == '9' || c == 'a' || c == 'b' || c == 'A' || c == 'B'

def nilUUID : String := "00000000-0000-0000-0000-000000000000"

def uuidCharOk (cs : List Char) (i : Nat) : Bool :=
  match cs[i]? with
  | none => false
  | some c =>
    if i == 8 || i == 13 || i == 18 || i == 23 then c == '-'
    else if i == 14 then isVersionChar c
    else if i == 19 then isVariantChar c
    else isHexChar c

/-- The `validate` regex of the `uuid` package: 8-4-4-4-12 hex digits with a
version digit 1-5 and a variant digit in [89ab] (case-insensitive), or the
nil UUID. -/
def isValidUUID (s : String) : Bool :=
  (s.data.length == 36 && (List.range 36).all (fun i => uuidCharOk s.data i))
    || s == nilUUID

/-! ## Data model -/

inductive LeaveStatus where
  | PENDING
  | APPROVED
  | REJECTED
deriving Repr, DecidableEq

structure User where
  id : String
  name : String
  email : String
  availableDays : Int
  createdAt : Nat
  updatedAt : Option Nat
deriving Repr, DecidableEq

structure UserPayload where
  name : String
  email : String
  availableDays : Option Int
deriving Repr, DecidableEq

structure Leave where
  id : String
  userId : String
  startDate : Int
  endDate : Int
  days : Int
  status : LeaveStatus
  createdAt : Nat
  updatedAt : Option Nat
deriving Repr, DecidableEq

structure LeavePayload where
  startDate : Int
  endDate : Int
deriving Repr, DecidableEq

/-- The azle `Result` variant: `Ok` a value or `Err` a message string. -/
inductive Res (α : Type) where
  | Ok : α → Res α
  | Err : String → Res α
deriving Repr, DecidableEq

def DEFAULT_AVAILABLE_DAYS : Int := 21

/-! ## Keyed stores (`StableBTreeMap`): association lists -/

def mapGet {α : Type} : List (String × α) → String → Option α
  | [], _ => none
  | p :: m, k => if p.1 = k then some p.2 else mapGet m k

def hasKey {α : Type} (m : List (String × α)) (k : String) : Bool :=
  m.any (fun p => p.1 == k)

/-- Insert-or-replace: overwrite the entry at key `k` when present,
append a new entry otherwise. -/
def mapInsert {α : Type} (m : List (String × α)) (k : String) (v : α) :
    List (String × α) :=
  if hasKey m k then m.map (fun p => if p.1 == k then (k, v) else p)
  else m ++ [(k, v)]

def mapRemoveKey {α : Type} (m : List (String × α)) (k : String) :
    List (String × α) :=
  m.filter (fun p => !(p.1 == k))

def mapValues {α : Type} (m : List (String × α)) : List α :=
  m.map (fun p => p.2)

/-- Canister state: the two stable stores. -/
structure State where
  users : List (String × User)
  leaves : List (String × Leave)
deriving Repr, DecidableEq

/-- Ambient inputs of one call: `ic.time()`, the wall-clock instant read by
`new Date()` (ms since epoch, UTC), and the identifier `uuidv4()` returns. -/
structure Env where
  now : Nat
  wallMs : Int
  freshId : String
deriving Repr, DecidableEq

/-! ## Date helpers -/

def oneDay : Int := 86400000

/-- `findDiffInDays` from the source:
`Math.max(1, Math.round(Math.abs((endDate - startDate) / oneDay)))`.
JavaScript `Math.round x = floor (x + 1/2)`; for a non-negative integer
numerator and the even denominator `oneDay` this is exactly
`(n + oneDay/2) / oneDay` in natural division (see `findDiffInDays_spec`). -/
def findDiffInDays (startDate endDate : Int) : Int :=
  let diffDays : Int :=
    Int.ofNat (((endDate - startDate).natAbs + 43200000) / 86400000)
  max 1 diffDays

/-- JavaScript `Math.round` on an exact rational: floor (x + 1/2). -/
def jsRound (x : ℚ) : ℤ := ⌊x + 1/2⌋

/-- Gregorian calendar year of a civil day count (days since 1970-01-01),
following the standard civil-from-days algorithm; used to model
`new Date(ms).getFullYear()` under UTC. -/
def civilYear (z0 : Int) : Int :=
  let z := z0 + 719468
  let era : Int := Int.fdiv z 146097
  let doe : Int := z - era * 146097
  let yoe : Int := (doe - doe / 1460 + doe / 36524 - doe / 146096) / 365
  let y : Int := yoe + era * 400
  let doy : Int := doe - (365 * yoe + yoe / 4 - yoe / 100)
  let mp : Int := (5 * doy + 2) / 153
  let m : Int := if mp < 10 then mp + 3 else mp - 9
  if m ≤ 2 then y + 1 else y

/-- `new Date(ms).getFullYear()` under UTC. -/
def yearOf (ms : Int) : Int := civilYear (Int.fdiv ms oneDay)

/-! ## User management -/

/-- `getUser` (query). -/
def getUser (s : State) (id : String) : Res User :=
  if !isValidUUID id then .Err "Please enter a valid User ID!"
  else match mapGet s.users id with
    | some userData => .Ok userData
    | none => .Err ("User with ID " ++ id ++ " not found!")

/-- `getUsers` (query). -/
def getUsers (s : State) : Res (List User) :=
  .Ok (mapValues s.users)

/-- `addUser`. The TS truthiness test `!payload.name || !payload.email`
is the empty-string test here. `users.find(...)` is used only for its
truthiness, i.e. existence. -/
def addUser (env : Env) (payload : UserPayload) (s : State) :
    Res User × State :=
  if payload.name = "" ∨ payload.email = "" then
    (.Err "Name and Email are required. Please provide valid data.", s)
  else if (mapValues s.users).any (fun user => user.email == payload.email) then
    (.Err "User with this email already exists!", s)
  else
    let availableDays := payload.availableDays.getD DEFAULT_AVAILABLE_DAYS
    let user : User :=
      { id := env.freshId, name := payload.name, email := payload.email,
        availableDays := availableDays, createdAt := env.now,
        updatedAt := none }
    (.Ok user, { s with users := mapInsert s.users user.id user })

/-- `updateUser`. The spread `\x7b ...user, ...payload, updatedAt: Some(time) \x7d`
overwrites name and email, overwrites `availableDays` when the payload
carries the field, and stamps `updatedAt`. -/
def updateUser (env : Env) (id : String) (payload : UserPayload) (s : State) :
    Res User × State :=
  if !isValidUUID id then (.Err "Please enter a valid User ID!", s)
  else if payload.name = "" ∨ payload.email = "" then
    (.Err "Name and Email cannot be empty. Please provide valid data.", s)
  else match mapGet s.users id with
    | some user =>
      let updatedUser : User :=
        { user with name := payload.name, email := payload.email,
                    availableDays := payload.availableDays.getD user.availableDays,
                    updatedAt := some env.now }
      (.Ok updatedUser, { s with users := mapInsert s.users user.id updatedUser })
    | none => (.Err ("User with ID " ++ id ++ " not found!"), s)

/-- `deleteUser`: `userStorage.remove(id)` returns the previous value. -/
def deleteUser (id : String) (s : State) : Res User × State :=
  if !isValidUUID id then (.Err "Please enter a valid User ID!", s)
  else match mapGet s.users id with
    | some deletedUser =>
      (.Ok deletedUser, { s with users := mapRemoveKey s.users id })
    | none => (.Err ("User with ID " ++ id ++ " not found!"), s)

/-! ## Helpers (balance adjustment) -/

inductive AdjustOp where
  | ADD
  | SUBTRACT
deriving Repr, DecidableEq

/-- `updateUsersAvailableDays`. The TS guard
`!user || !user.Ok || !user.Ok.availableDays` reads: the match object is
always truthy; `!user.Ok` is the Err case; `!user.Ok.availableDays` is the
number-zero (falsy) case. The TS call passes the whole user spread as the
payload; `updateUser` only consumes its name, email and `availableDays`
fields beyond fields it takes from the stored user anyway, so the payload
is modelled by those three fields. -/
def updateUsersAvailableDays (env : Env) (userId : String) (leaveDays : Int)
    (operation : AdjustOp) (s : State) : Res User × State :=
  if !isValidUUID userId then (.Err "Please enter a valid User ID!", s)
  else match getUser s userId with
    | .Err _ =>
      (.Err "Could not update the user's leave status. Something went wrong!", s)
    | .Ok u =>
      if u.availableDays = 0 then
        (.Err "Could not update the user's leave status. Something went wrong!", s)
      else
        let availableDays : Int :=
          match operation with
          | .ADD => u.availableDays + leaveDays
          | .SUBTRACT => u.availableDays - leaveDays
        updateUser env userId
          { name := u.name, email := u.email, availableDays := some availableDays } s

/-! ## Leave management -/

/-- `getLeaveRequests` (query). -/
def getLeaveRequests (s : State) : Res (List Leave) :=
  .Ok (mapValues s.leaves)

/-- `getUsersLeaveRequests` (query). The TS filter destructures the leave
as `(\x7b userId \x7d) => userId === userId`, shadowing the function parameter,
so the predicate compares the stored field with itself. -/
def getUsersLeaveRequests (s : State) (userId : String) : Res (List Leave) :=
  if !isValidUUID userId then .Err "Please enter a valid User ID!"
  else .Ok ((mapValues s.leaves).filter (fun l => l.userId == l.userId))

/-- `getLeaveRequestsByStatus` (query). The status argument is already a
member of the three-valued enum, so the `includes` guard always passes. -/
def getLeaveRequestsByStatus (s : State) (status : LeaveStatus) :
    Res (List Leave) :=
  .Ok ((mapValues s.leaves).filter (fun leave => leave.status == status))

/-- `requestLeave`. The result of the final balance adjustment is
discarded, exactly as in the source. -/
def requestLeave (env : Env) (userId : String) (payload : LeavePayload)
    (s : State) : Res Leave × State :=
  if !isValidUUID userId then (.Err "Please enter a valid User ID!", s)
  else match getUser s userId with
    | .Err _ => (.Err "User with the given ID was not found.", s)
    | .Ok user =>
      if payload.startDate ≥ payload.endDate then
        (.Err "Start date must be before end date.", s)
      else
        let currentYear := yearOf env.wallMs
        if yearOf payload.startDate ≠ currentYear ∨
            yearOf payload.endDate ≠ currentYear then
          (.Err "Leave period should be in the current calendar year.", s)
        else
          let diffDays := findDiffInDays payload.startDate payload.endDate
          if diffDays < 1 then (.Err "Leave should be at least one day.", s)
          else if user.availableDays < diffDays then
            (.Err "You are exceeding your available days for leave.", s)
          else
            let leaves :=
              (mapValues s.leaves).filter (fun leave => leave.userId == userId)
            let isOverlapping := leaves.any (fun currentLeave =>
              !(decide (payload.endDate < currentLeave.startDate) ||
                decide (payload.startDate > currentLeave.endDate)))
            if isOverlapping then
              (.Err "The chosen leave period overlaps with an existing leave.", s)
            else
              let leave : Leave :=
                { id := env.freshId, userId := userId,
                  startDate := payload.startDate, endDate := payload.endDate,
                  days := diffDays, status := .PENDING,
                  createdAt := env.now, updatedAt := none }
              let s1 := { s with leaves := mapInsert s.leaves leave.id leave }
              (.Ok leave,
               (updateUsersAvailableDays env userId diffDays .SUBTRACT s1).2)

/-- `updateLeave`: recomputes `days` and overwrites the stored range,
with no overlap, year or balance re-validation. -/
def updateLeave (env : Env) (id : String) (payload : LeavePayload) (s : State) :
    Res Leave × State :=
  if !isValidUUID id then (.Err "Please enter a valid Leave ID!", s)
  else match mapGet s.leaves id with
    | some leave =>
      let diffDays := findDiffInDays payload.startDate payload.endDate
      if diffDays < 1 then (.Err "Leave should be at least one day.", s)
      else
        let updatedLeave : Leave :=
          { leave with startDate := payload.startDate,
                       endDate := payload.endDate, days := diffDays,
                       updatedAt := some env.now }
        (.Ok updatedLeave,
         { s with leaves := mapInsert s.leaves leave.id updatedLeave })
    | none => (.Err ("Leave with ID " ++ id ++ " not found!"), s)

/-- `deleteLeave`. -/
def deleteLeave (id : String) (s : State) : Res Leave × State :=
  if !isValidUUID id then (.Err "Please enter a valid Leave ID!", s)
  else match mapGet s.leaves id with
    | some deletedLeave =>
      (.Ok deletedLeave, { s with leaves := mapRemoveKey s.leaves id })
    | none => (.Err ("Leave with ID " ++ id ++ " not found!"), s)

/-- `updateLeaveStatus`: overwrite the status unconditionally, persist,
then re-settle the balance (credit on REJECTED, debit otherwise), with
the adjustment's result discarded. -/
def updateLeaveStatus (env : Env) (id : String) (status : LeaveStatus)
    (s : State) : Res Leave × State :=
  if !isValidUUID id then (.Err "Please enter a valid Leave ID!", s)
  else match mapGet s.leaves id with
    | some leave =>
      let updatedLeave : Leave :=
        { leave with status := status, updatedAt := some env.now }
      let s1 := { s with leaves := mapInsert s.leaves leave.id updatedLeave }
      let s2 :=
        if status = .REJECTED then
          (updateUsersAvailableDays env leave.userId leave.days .ADD s1).2
        else
          (updateUsersAvailableDays env leave.userId leave.days .SUBTRACT s1).2
      (.Ok updatedLeave, s2)
    | none => (.Err ("Leave with ID " ++ id ++ " not found!"), s)

/-! ## Invariants and operation sequences -/

/-- Every stored user has a non-negative balance. -/
@[reducible]
def UsersNonneg (s : State) : Prop :=
  ∀ u ∈ mapValues s.users, 0 ≤ u.availableDays

/-- Every stored leave request has a non-negative day count. -/
@[reducible]
def LeavesNonneg (s : State) : Prop :=
  ∀ l ∈ mapValues s.leaves, 0 ≤ l.days

@[reducible]
def BalanceInv (s : State) : Prop := UsersNonneg s ∧ LeavesNonneg s

/-- One successful-or-failed call of the operations named by the balance
invariant claim, restricted to the cases that preserve the invariant:
the payloads of `addUser` and `updateUser` carry a non-negative balance
when they carry one, and `updateLeaveStatus` is applied with the REJECTED
target only. -/
inductive GoodStep (env : Env) : State → State → Prop where
  | add_user (p : UserPayload) (s : State) (hp : 0 ≤ p.availableDays.getD 0) :
      GoodStep env s (addUser env p s).2
  | update_user (id : String) (p : UserPayload) (s : State)
      (hp : 0 ≤ p.availableDays.getD 0) :
      GoodStep env s (updateUser env id p s).2
  | request_leave (userId : String) (p : LeavePayload) (s : State) :
      GoodStep env s (requestLeave env userId p s).2
  | update_leave (id : String) (p : LeavePayload) (s : State) :
      GoodStep env s (updateLeave env id p s).2
  | delete_leave (id : String) (s : State) :
      GoodStep env s (deleteLeave id s).2
  | reject_leave (id : String) (s : State) :
      GoodStep env s (updateLeaveStatus env id .REJECTED s).2

/-- A finite sequence of `GoodStep` calls. -/
inductive GoodTrace : State → State → Prop where
  | refl (s : State) : GoodTrace s s
  | tail (s t u : State) (env : Env) :
      GoodTrace s t → GoodStep env t u → GoodTrace s u

/-- The keys of the user store are duplicate-free. -/
@[reducible]
def NodupUserKeys (s : State) : Prop := (s.users.map Prod.fst).Nodup

/-- Every user entry is stored under its own id. -/
@[reducible]
def WellKeyedUsers (s : State) : Prop := ∀ p ∈ s.users, p.2.id = p.1

/-- No two distinct stored users share an email. -/
@[reducible]
def EmailUnique (s : State) : Prop :=
  (mapValues s.users).Pairwise (fun a b => a.email ≠ b.email)

@[reducible]
def EmailInv (s : State) : Prop :=
  NodupUserKeys s ∧ WellKeyedUsers s ∧ EmailUnique s

/-- One call of any public mutating operation, with `updateUser`
restricted to payloads whose email is not already used by a different
stored user (the one case the code does not guard itself). -/
inductive EmailStep (env : Env) : State → State → Prop where
  | add_user (p : UserPayload) (s : State) :
      EmailStep env s (addUser env p s).2
  | update_user (id : String) (p : UserPayload) (s : State)
      (hp : ∀ w ∈ mapValues s.users, w.email = p.email → w.id = id) :
      EmailStep env s (updateUser env id p s).2
  | delete_user (id : String) (s : State) :
      EmailStep env s (deleteUser id s).2
  | request_leave (userId : String) (p : LeavePayload) (s : State) :
      EmailStep env s (requestLeave env userId p s).2
  | update_leave (id : String) (p : LeavePayload) (s : State) :
      EmailStep env s (updateLeave env id p s).2
  | delete_leave (id : String) (s : State) :
      EmailStep env s (deleteLeave id s).2
  | update_leave_status (id : String) (st : LeaveStatus) (s : State) :
      EmailStep env s (updateLeaveStatus env id st s).2

/-- A finite sequence of `EmailStep` calls. -/
inductive EmailTrace : State → State → Prop where
  | refl (s : State) : EmailTrace s s
  | tail (s t u : State) (env : Env) :
      EmailTrace s t → EmailStep env t u → EmailTrace s u

/-- Did the call succeed? -/
def resOk {α : Type} : Res α → Bool
  | .Ok _ => true
  | .Err _ => false

/-! ## Concrete data used by witnesses and counterexamples -/

def uuidA : String := "aaaaaaaa-aaaa-4aaa-8aaa-aaaaaaaaaaaa"
def uuidB : String := "bbbbbbbb-bbbb-4bbb-8bbb-bbbbbbbbbbbb"
def uuidC : String := "cccccccc-cccc-4ccc-8ccc-cccccccccccc"
def uuidL : String := "dddddddd-dddd-4ddd-8ddd-dddddddddddd"

/-- 2024-01-01T00:00:00Z in ms. -/
def jan1 : Int := 1704067200000

def stEmpty : State := { users := [], leaves := [] }

def envA : Env := { now := 10, wallMs := jan1, freshId := uuidA }
def envB : Env := { now := 20, wallMs := jan1, freshId := uuidB }
def envL : Env := { now := 30, wallMs := jan1, freshId := uuidL }

/-- A two-day range inside 2024. -/
def payTwoDays : LeavePayload :=
  { startDate := jan1, endDate := jan1 + 2 * oneDay }

def payFive : UserPayload :=
  { name := "n", email := "e", availableDays := some 5 }

def payNeg : UserPayload :=
  { name := "x", email := "y", availableDays := some (-5) }

def payTwo : UserPayload :=
  { name := "n", email := "e", availableDays := some 2 }

def payOther : UserPayload :=
  { name := "m", email := "f", availableDays := some 21 }

def payTakeover : UserPayload :=
  { name := "m", email := "e", availableDays := some 21 }

def c1s1 : State := (addUser envA payFive stEmpty).2
def c1s2 : State := (requestLeave envL uuidA payTwoDays c1s1).2
def c1s3 : State := (updateLeaveStatus envL uuidL .APPROVED c1s2).2
def c1s4 : State := (updateLeaveStatus envL uuidL .APPROVED c1s3).2

def c3s1 : State := (addUser envA payTwo stEmpty).2
def c3s2 : State := (requestLeave envL uuidA payTwoDays c3s1).2
def c3s3 : State := (updateLeaveStatus envL uuidL .REJECTED c3s2).2

def userTwo : User :=
  { id := uuidA, name := "n", email := "e", availableDays := 2,
    createdAt := 0, updatedAt := none }

def leaveTwo : Leave :=
  { id := uuidL, userId := uuidA, startDate := jan1,
    endDate := jan1 + 2 * oneDay, days := 2, status := .PENDING,
    createdAt := 0, updatedAt := none }

def c4s0 : State := { users := [(uuidA, userTwo)], leaves := [(uuidL, leaveTwo)] }
def c4s1 : State := (updateLeaveStatus envL uuidL .APPROVED c4s0).2
def c4s2 : State := (updateLeaveStatus envL uuidL .APPROVED c4s1).2

def c9s1 : State := (addUser envA payFive stEmpty).2
def c9s2 : State := (addUser envB payOther c9s1).2
def c9s3 : State := (updateUser envB uuidB payTakeover c9s2).2

def leaveOfA : Leave :=
  { id := uuidL, userId := uuidA, startDate := 0, endDate := oneDay, days := 1,
    status := .PENDING, createdAt := 0, updatedAt := none }

def c8st : State := { users := [], leaves := [(uuidL, leaveOfA)] }

def userFive : User :=
  { id := uuidA, name := "n", email := "e", availableDays := 5,
    createdAt := 0, updatedAt := none }

def stUserFive : State := { users := [(uuidA, userFive)], leaves := [] }

def stOverlap : State :=
  { users := [(uuidA, userFive)], leaves := [(uuidL, leaveTwo)] }

/-- A range starting exactly at the end instant of `leaveTwo`. -/
def payBoundary : LeavePayload :=
  { startDate := jan1 + 2 * oneDay, endDate := jan1 + 3 * oneDay }

/-- A ten-day range inside 2024, exceeding a balance of five. -/
def payTenDays : LeavePayload :=
  { startDate := jan1, endDate := jan1 + 10 * oneDay }

/-! ## Store lemmas -/

theorem mapValues_cons {α : Type} (p : String × α) (m : List (String × α)) :
    mapValues (p :: m) = p.2 :: mapValues m := rfl

theorem mapGet_mem_values {α : Type} {m : List (String × α)} {k : String}
    {v : α} (h : mapGet m k = some v) : v ∈ mapValues m := by
  induction m with
  | nil => simp [mapGet] at h
  | cons p m ih =>
    rw [mapGet] at h
    rw [mapValues_cons]
    by_cases hk : p.1 = k
    · rw [if_pos hk] at h
      exact List.mem_cons.mpr (Or.inl (Option.some_injective _ h).symm)
    · rw [if_neg hk] at h
      exact List.mem_cons.mpr (Or.inr (ih h))

theorem mem_values_insert {α : Type} {m : List (String × α)} {k : String}
    {v x : α} (hx : x ∈ mapValues (mapInsert m k v)) :
    x = v ∨ x ∈ mapValues m := by
  unfold mapInsert at hx
  split at hx
  · rw [mapValues, List.map_map, List.mem_map] at hx
    obtain ⟨p, hp, hpx⟩ := hx
    simp only [Function.comp] at hpx
    by_cases hpk : p.1 = k
    · rw [if_pos (by simpa using hpk)] at hpx
      exact Or.inl hpx.symm
    · rw [if_neg (by simpa using hpk)] at hpx
      exact Or.inr (hpx ▸ List.mem_map_of_mem _ hp)
  · rw [mapValues, List.map_append, List.mem_append] at hx
    rcases hx with hx | hx
    · exact Or.inr hx
    · simp at hx
      exact Or.inl hx

theorem mapGet_replace_self {α : Type} {m : List (String × α)} {k : String}
    (v : α) (hm : hasKey m k = true) :
    mapGet (m.map (fun p => if p.1 == k then (k, v) else p)) k = some v := by
  induction m with
  | nil => simp [hasKey] at hm
  | cons p m ih =>
    by_cases hpk : p.1 = k
    · simp [mapGet, hpk]
    · have hm' : hasKey m k = true := by simpa [hasKey, hpk] using hm
      have hrec := ih hm'
      simp only [beq_iff_eq] at hrec
      simp [mapGet, hpk, hrec]

theorem mapGet_append_self {α : Type} {m : List (String × α)} {k : String}
    (v : α) (hm : hasKey m k = false) :
    mapGet (m ++ [(k, v)]) k = some v := by
  induction m with
  | nil => simp [mapGet]
  | cons p m ih =>
    rw [List.cons_append, mapGet]
    have hpk : ¬ p.1 = k := by
      intro hpk
      simp [hasKey, hpk] at hm
    rw [if_neg hpk]
    exact ih (by simpa [hasKey, hpk] using hm)

theorem mapGet_insert_self {α : Type} (m : List (String × α)) (k : String)
    (v : α) : mapGet (mapInsert m k v) k = some v := by
  unfold mapInsert
  split
  next hm => exact mapGet_replace_self v hm
  next hm => exact mapGet_append_self v (by simpa using hm)

theorem mem_values_removeKey {α : Type} {m : List (String × α)} {k : String}
    {x : α} (hx : x ∈ mapValues (mapRemoveKey m k)) : x ∈ mapValues m := by
  rw [mapValues, List.mem_map] at hx ⊢
  obtain ⟨p, hp, hpx⟩ := hx
  exact ⟨p, (List.filter_sublist m).subset hp, hpx⟩

/-! ## Duration lemmas -/

theorem findDiffInDays_ge_one (s e : Int) : 1 ≤ findDiffInDays s e :=
  le_max_left 1 _

/-! ## getUser lemmas -/

theorem getUser_ok {s : State} {uid : String} {u : User}
    (h : getUser s uid = Res.Ok u) :
    isValidUUID uid = true ∧ mapGet s.users uid = some u := by
  unfold getUser at h
  split at h
  · exact absurd h (by simp)
  next hv =>
    refine ⟨by simpa using hv, ?_⟩
    split at h
    next heq => rw [heq]; exact congrArg some (Res.Ok.injEq _ _ ▸ h) |>.symm ▸ rfl
    · exact absurd h (by simp)

theorem getUser_eval {s : State} {uid : String} {u : User}
    (hv : isValidUUID uid = true) (hm : mapGet s.users uid = some u) :
    getUser s uid = Res.Ok u := by
  unfold getUser
  rw [hv]
  simp [hm]

/-! ## Operation characterization lemmas -/

theorem addUser_leaves (env : Env) (p : UserPayload) (s : State) :
    ((addUser env p s).2).leaves = s.leaves := by
  unfold addUser
  split
  · rfl
  split
  · rfl
  · rfl

theorem addUser_cases (env : Env) (p : UserPayload) (s : State) :
    (addUser env p s).2 = s ∨
    (((mapValues s.users).any (fun user => user.email == p.email)) = false ∧
      (addUser env p s).2 =
        { s with users := mapInsert s.users env.freshId
                            { id := env.freshId, name := p.name,
                              email := p.email,
                              availableDays :=
                                p.availableDays.getD DEFAULT_AVAILABLE_DAYS,
                              createdAt := env.now, updatedAt := none } }) := by
  unfold addUser
  split
  · exact Or.inl rfl
  split
  next hdup => exact Or.inl rfl
  next hdup => exact Or.inr ⟨by simpa using hdup, rfl⟩

theorem updateUser_leaves (env : Env) (id : String) (p : UserPayload)
    (s : State) : ((updateUser env id p s).2).leaves = s.leaves := by
  unfold updateUser
  split
  · rfl
  split
  · rfl
  split
  · rfl
  · rfl

theorem updateUser_cases (env : Env) (id : String) (p : UserPayload)
    (s : State) :
    (updateUser env id p s).2 = s ∨
    ∃ u, mapGet s.users id = some u ∧
      (updateUser env id p s).2 =
        { s with users := mapInsert s.users u.id
                            { u with name := p.name, email := p.email,
                                     availableDays :=
                                       p.availableDays.getD u.availableDays,
                                     updatedAt := some env.now } } := by
  unfold updateUser
  split
  · exact Or.inl rfl
  split
  · exact Or.inl rfl
  split
  next u hu => exact Or.inr ⟨u, hu, rfl⟩
  next => exact Or.inl rfl

theorem deleteUser_cases (id : String) (s : State) :
    (deleteUser id s).2 = s ∨
    (deleteUser id s).2 = { s with users := mapRemoveKey s.users id } := by
  unfold deleteUser
  split
  · exact Or.inl rfl
  split
  · exact Or.inr rfl
  · exact Or.inl rfl

theorem deleteUser_leaves (id : String) (s : State) :
    ((deleteUser id s).2).leaves = s.leaves := by
  rcases deleteUser_cases id s with h | h <;> rw [h]

theorem adjust_leaves (env : Env) (uid : String) (d : Int) (op : AdjustOp)
    (s : State) :
    ((updateUsersAvailableDays env uid d op s).2).leaves = s.leaves := by
  unfold updateUsersAvailableDays
  split
  · rfl
  split
  · rfl
  split
  · rfl
  · exact updateUser_leaves _ _ _ _

theorem adjust_cases (env : Env) (uid : String) (d : Int) (op : AdjustOp)
    (s : State) :
    (updateUsersAvailableDays env uid d op s).2 = s ∨
    ∃ u, mapGet s.users uid = some u ∧ u.availableDays ≠ 0 ∧
      (updateUsersAvailableDays env uid d op s).2 =
        (updateUser env uid
          { name := u.name, email := u.email,
            availableDays := some (match op with
              | .ADD => u.availableDays + d
              | .SUBTRACT => u.availableDays - d) } s).2 := by
  unfold updateUsersAvailableDays
  split
  · exact Or.inl rfl
  split
  · exact Or.inl rfl
  next u hu =>
    split
    · exact Or.inl rfl
    next hnz => exact Or.inr ⟨u, (getUser_ok hu).2, hnz, rfl⟩

theorem updateLeave_users (env : Env) (id : String) (p : LeavePayload)
    (s : State) : ((updateLeave env id p s).2).users = s.users := by
  simp only [updateLeave]
  split
  · rfl
  split
  · split
    · rfl
    · rfl
  · rfl

theorem updateLeave_cases (env : Env) (id : String) (p : LeavePayload)
    (s : State) :
    (updateLeave env id p s).2 = s ∨
    ∃ leave, mapGet s.leaves id = some leave ∧
      (updateLeave env id p s).2 =
        { s with leaves := mapInsert s.leaves leave.id
                             { leave with startDate := p.startDate,
                                          endDate := p.endDate,
                                          days := findDiffInDays p.startDate
                                                    p.endDate,
                                          updatedAt := some env.now } } := by
  simp only [updateLeave]
  split
  · exact Or.inl rfl
  split
  next leave hleave =>
    split
    · exact Or.inl rfl
    · exact Or.inr ⟨leave, hleave, rfl⟩
  next => exact Or.inl rfl

theorem deleteLeave_users (id : String) (s : State) :
    ((deleteLeave id s).2).users = s.users := by
  unfold deleteLeave
  split
  · rfl
  split
  · rfl
  · rfl

theorem deleteLeave_cases (id : String) (s : State) :
    (deleteLeave id s).2 = s ∨
    (deleteLeave id s).2 = { s with leaves := mapRemoveKey s.leaves id } := by
  unfold deleteLeave
  split
  · exact Or.inl rfl
  split
  · exact Or.inr rfl
  · exact Or.inl rfl

theorem requestLeave_state (env : Env) (uid : String) (p : LeavePayload)
    (s : State) :
    (requestLeave env uid p s).2 = s ∨
    ∃ user, getUser s uid = Res.Ok user ∧
      ¬ user.availableDays < findDiffInDays p.startDate p.endDate ∧
      (requestLeave env uid p s).2 =
        (updateUsersAvailableDays env uid
          (findDiffInDays p.startDate p.endDate) .SUBTRACT
          { s with leaves := mapInsert s.leaves env.freshId
                               { id := env.freshId, userId := uid,
                                 startDate := p.startDate,
                                 endDate := p.endDate,
                                 days := findDiffInDays p.startDate p.endDate,
                                 status := .PENDING, createdAt := env.now,
                                 updatedAt := none } }).2 := by
  simp only [requestLeave]
  split
  · exact Or.inl rfl
  split
  · exact Or.inl rfl
  next user huser =>
    split
    · exact Or.inl rfl
    split
    · exact Or.inl rfl
    split
    · exact Or.inl rfl
    split
    · exact Or.inl rfl
    next hbal =>
      split
      · exact Or.inl rfl
      · exact Or.inr ⟨user, huser, hbal, rfl⟩

theorem updateLeaveStatus_state (env : Env) (id : String) (st : LeaveStatus)
    (s : State) :
    (updateLeaveStatus env id st s).2 = s ∨
    ∃ leave, mapGet s.leaves id = some leave ∧
      (updateLeaveStatus env id st s).2 =
        (updateUsersAvailableDays env leave.userId leave.days
          (if st = .REJECTED then .ADD else .SUBTRACT)
          { s with leaves := mapInsert s.leaves leave.id
                              { leave with status := st,
                                           updatedAt := some env.now } }).2 := by
  simp only [updateLeaveStatus]
  split
  · exact Or.inl rfl
  split
  next leave hleave =>
    refine Or.inr ⟨leave, hleave, ?_⟩
    by_cases hst : st = .REJECTED
    · simp [hst]
    · simp [hst]
  next => exact Or.inl rfl

/-! ## Balance invariant preservation -/

theorem usersNonneg_updateUser (env : Env) (id : String) (p : UserPayload)
    (s : State) (hp : 0 ≤ p.availableDays.getD 0) (h : UsersNonneg s) :
    UsersNonneg (updateUser env id p s).2 := by
  rcases updateUser_cases env id p s with heq | ⟨u, hu, heq⟩
  · rw [heq]; exact h
  · rw [heq]
    intro x hx
    rcases mem_values_insert hx with rfl | hx
    · cases hd : p.availableDays with
      | none => simpa [hd] using h u (mapGet_mem_values hu)
      | some d => simpa [hd] using hp
    · exact h x hx

theorem leavesNonneg_insert_ge (s : State) (k : String) (lv : Leave)
    (hl : 0 ≤ lv.days) (h : LeavesNonneg s) :
    LeavesNonneg { s with leaves := mapInsert s.leaves k lv } := by
  intro x hx
  rcases mem_values_insert hx with rfl | hx
  · exact hl
  · exact h x hx

theorem balanceInv_adjust (env : Env) (uid : String) (d : Int) (op : AdjustOp)
    (s : State)
    (hok : ∀ u, mapGet s.users uid = some u →
      0 ≤ (match op with
        | AdjustOp.ADD => u.availableDays + d
        | AdjustOp.SUBTRACT => u.availableDays - d))
    (h : BalanceInv s) : BalanceInv (updateUsersAvailableDays env uid d op s).2 := by
  rcases adjust_cases env uid d op s with heq | ⟨u, hu, hnz, heq⟩
  · rw [heq]; exact h
  · rw [heq]
    refine ⟨usersNonneg_updateUser _ _ _ _ ?_ h.1, ?_⟩
    · simpa using hok u hu
    · intro x hx
      rw [updateUser_leaves] at hx
      exact h.2 x hx

theorem balanceInv_addUser (env : Env) (p : UserPayload) (s : State)
    (hp : 0 ≤ p.availableDays.getD 0) (h : BalanceInv s) :
    BalanceInv (addUser env p s).2 := by
  constructor
  · rcases addUser_cases env p s with heq | ⟨-, heq⟩
    · rw [heq]; exact h.1
    · rw [heq]
      intro x hx
      rcases mem_values_insert hx with rfl | hx
      · cases hd : p.availableDays with
        | none => norm_num [hd, DEFAULT_AVAILABLE_DAYS]
        | some d => simpa [hd] using hp
      · exact h.1 x hx
  · intro x hx
    rw [addUser_leaves] at hx
    exact h.2 x hx

theorem balanceInv_updateUser (env : Env) (id : String) (p : UserPayload)
    (s : State) (hp : 0 ≤ p.availableDays.getD 0) (h : BalanceInv s) :
    BalanceInv (updateUser env id p s).2 := by
  refine ⟨usersNonneg_updateUser env id p s hp h.1, ?_⟩
  intro x hx
  rw [updateUser_leaves] at hx
  exact h.2 x hx

theorem balanceInv_requestLeave (env : Env) (uid : String) (p : LeavePayload)
    (s : State) (h : BalanceInv s) : BalanceInv (requestLeave env uid p s).2 := by
  rcases requestLeave_state env uid p s with heq | ⟨user, huser, hbal, heq⟩
  · rw [heq]; exact h
  · rw [heq]
    have hmem : mapGet s.users uid = some user := (getUser_ok huser).2
    apply balanceInv_adjust
    · intro u hu
      obtain rfl : user = u := Option.some_injective _ (hmem.symm.trans hu)
      have hle : findDiffInDays p.startDate p.endDate ≤ user.availableDays :=
        not_lt.mp hbal
      simpa using sub_nonneg.mpr hle
    · exact ⟨h.1, leavesNonneg_insert_ge s env.freshId _
        (le_trans (by norm_num) (findDiffInDays_ge_one p.startDate p.endDate))
        h.2⟩

theorem balanceInv_updateLeave (env : Env) (id : String) (p : LeavePayload)
    (s : State) (h : BalanceInv s) : BalanceInv (updateLeave env id p s).2 := by
  rcases updateLeave_cases env id p s with heq | ⟨leave, hleave, heq⟩
  · rw [heq]; exact h
  · rw [heq]
    exact ⟨h.1, leavesNonneg_insert_ge s leave.id _
      (le_trans (by norm_num) (findDiffInDays_ge_one p.startDate p.endDate))
      h.2⟩

theorem balanceInv_deleteLeave (id : String) (s : State) (h : BalanceInv s) :
    BalanceInv (deleteLeave id s).2 := by
  rcases deleteLeave_cases id s with heq | heq <;> rw [heq]
  · exact h
  · exact ⟨h.1, fun x hx => h.2 x (mem_values_removeKey hx)⟩

theorem balanceInv_rejectLeave (env : Env) (id : String) (s : State)
    (h : BalanceInv s) :
    BalanceInv (updateLeaveStatus env id .REJECTED s).2 := by
  rcases updateLeaveStatus_state env id .REJECTED s with heq | ⟨leave, hleave, heq⟩
  · rw [heq]; exact h
  · rw [heq]
    have hdays : 0 ≤ leave.days := h.2 leave (mapGet_mem_values hleave)
    apply balanceInv_adjust
    · intro u hu
      have hu0 : 0 ≤ u.availableDays := h.1 u (mapGet_mem_values hu)
      simpa using add_nonneg hu0 hdays
    · exact ⟨h.1, leavesNonneg_insert_ge s leave.id _ hdays h.2⟩

theorem goodStep_balanceInv {env : Env} {s t : State} (hstep : GoodStep env s t)
    (h : BalanceInv s) : BalanceInv t := by
  cases hstep with
  | add_user p s hp => exact balanceInv_addUser env p s hp h
  | update_user id p s hp => exact balanceInv_updateUser env id p s hp h
  | request_leave uid p s => exact balanceInv_requestLeave env uid p s h
  | update_leave id p s => exact balanceInv_updateLeave env id p s h
  | delete_leave id s => exact balanceInv_deleteLeave id s h
  | reject_leave id s => exact balanceInv_rejectLeave env id s h

/-! ## Email uniqueness preservation -/

theorem mapGet_wellKeyed {m : List (String × User)} {k : String} {u : User}
    (hwk : ∀ p ∈ m, p.2.id = p.1) (h : mapGet m k = some u) : u.id = k := by
  induction m with
  | nil => simp [mapGet] at h
  | cons p m ih =>
    rw [mapGet] at h
    by_cases hpk : p.1 = k
    · rw [if_pos hpk] at h
      obtain rfl : p.2 = u := Option.some_injective _ h
      exact (hwk p (List.mem_cons_self p m)).trans hpk
    · rw [if_neg hpk] at h
      exact ih (fun q hq => hwk q (List.mem_cons_of_mem p hq)) h

theorem emailUnique_inj {s : State} (h : EmailInv s) {w u : User}
    (hw : w ∈ mapValues s.users) (hu : u ∈ mapValues s.users)
    (he : w.email = u.email) : w = u := by
  by_contra hne
  exact List.Pairwise.forall (fun x y hxy => hxy.symm) h.2.2 hw hu hne he

theorem emailInv_insert (s : State) (k : String) (v : User) (hv : v.id = k)
    (hfresh : ∀ w ∈ mapValues s.users, w.email = v.email → w.id = k)
    (h : EmailInv s) : EmailInv { s with users := mapInsert s.users k v } := by
  obtain ⟨hnd, hwk, hpw⟩ := h
  have hem : s.users.Pairwise (fun p q => p.2.email ≠ q.2.email) := by
    rw [EmailUnique, mapValues, List.pairwise_map] at hpw
    exact hpw
  refine ⟨?_, ?_, ?_⟩
  · show ((mapInsert s.users k v).map Prod.fst).Nodup
    unfold mapInsert
    split
    next hhk =>
      have hkeys :
          (s.users.map (fun p => if p.1 == k then (k, v) else p)).map Prod.fst
            = s.users.map Prod.fst := by
        rw [List.map_map]
        apply List.map_congr_left
        intro p hp
        by_cases hpk : p.1 = k
        · simp [Function.comp, hpk]
        · simp [Function.comp, hpk]
      rw [hkeys]
      exact hnd
    next hhk =>
      rw [List.map_append, List.nodup_append]
      refine ⟨hnd, by simp, ?_⟩
      intro a ha hb
      simp only [List.map_cons, List.map_nil, List.mem_singleton] at hb
      rw [List.mem_map] at ha
      obtain ⟨p, hp, hpa⟩ := ha
      have hask : hasKey s.users k = true := by
        unfold hasKey
        rw [List.any_eq_true]
        exact ⟨p, hp, by simp [hpa, hb]⟩
      simp [hask] at hhk
  · show ∀ p ∈ mapInsert s.users k v, p.2.id = p.1
    unfold mapInsert
    split
    · intro q hq
      rw [List.mem_map] at hq
      obtain ⟨p, hp, rfl⟩ := hq
      by_cases hpk : p.1 = k
      · simp [hpk, hv]
      · simpa [hpk] using hwk p hp
    · intro q hq
      rw [List.mem_append] at hq
      rcases hq with hq | hq
      · exact hwk q hq
      · simp only [List.mem_singleton] at hq
        subst hq
        exact hv
  · show ((mapInsert s.users k v).map (fun p => p.2)).Pairwise
      (fun a b => a.email ≠ b.email)
    unfold mapInsert
    split
    next hhk =>
      rw [List.map_map, List.pairwise_map]
      have hknd : s.users.Pairwise (fun p q => p.1 ≠ q.1) :=
        List.pairwise_map.mp hnd
      refine (hknd.and hem).imp_of_mem ?_
      intro a b ha hb hab
      obtain ⟨hab1, hab2⟩ := hab
      simp only [Function.comp]
      by_cases hak : a.1 = k <;> by_cases hbk : b.1 = k
      · exact absurd (hak.trans hbk.symm) hab1
      · simp only [hak, hbk, beq_self_eq_true, if_true]
        rw [if_neg (by simpa using hbk)]
        intro he
        have hbid : b.2.id = k := hfresh b.2 (List.mem_map_of_mem _ hb) he.symm
        exact hbk ((hwk b hb).symm.trans hbid)
      · simp only [hbk, beq_self_eq_true, if_true]
        rw [if_neg (by simpa using hak)]
        intro he
        have haid : a.2.id = k := hfresh a.2 (List.mem_map_of_mem _ ha) he
        exact hak ((hwk a ha).symm.trans haid)
      · rw [if_neg (by simpa using hak), if_neg (by simpa using hbk)]
        exact hab2
    next hhk =>
      rw [List.map_append, List.pairwise_append]
      refine ⟨hpw, by simp, ?_⟩
      intro a ha b hb
      simp only [List.map_cons, List.map_nil, List.mem_singleton] at hb
      subst hb
      intro he
      have haid : a.id = k := hfresh a ha he
      rw [List.mem_map] at ha
      obtain ⟨p, hp, rfl⟩ := ha
      have hask : hasKey s.users k = true := by
        unfold hasKey
        rw [List.any_eq_true]
        exact ⟨p, hp, by simpa using (hwk p hp).symm.trans haid⟩
      simp [hask] at hhk

theorem emailInv_updateUser (env : Env) (id : String) (p : UserPayload)
    (s : State)
    (hp : ∀ w ∈ mapValues s.users, w.email = p.email → w.id = id)
    (h : EmailInv s) : EmailInv (updateUser env id p s).2 := by
  rcases updateUser_cases env id p s with heq | ⟨u, hu, heq⟩
  · rw [heq]; exact h
  · rw [heq]
    have huid : u.id = id := mapGet_wellKeyed h.2.1 hu
    apply emailInv_insert
    · rfl
    · intro w hw he
      exact (hp w hw he).trans huid.symm
    · exact h

theorem emailInv_removeKey (s : State) (k : String) (h : EmailInv s) :
    EmailInv { s with users := mapRemoveKey s.users k } := by
  obtain ⟨hnd, hwk, hpw⟩ := h
  have hsub : (mapRemoveKey s.users k).Sublist s.users := List.filter_sublist _
  refine ⟨hnd.sublist (hsub.map Prod.fst), ?_, hpw.sublist (hsub.map _)⟩
  intro q hq
  exact hwk q (hsub.subset hq)

theorem emailInv_adjust (env : Env) (uid : String) (d : Int) (op : AdjustOp)
    (s : State) (h : EmailInv s) :
    EmailInv (updateUsersAvailableDays env uid d op s).2 := by
  rcases adjust_cases env uid d op s with heq | ⟨u, hu, hnz, heq⟩
  · rw [heq]; exact h
  · rw [heq]
    apply emailInv_updateUser
    · intro w hw he
      obtain rfl : w = u := emailUnique_inj h hw (mapGet_mem_values hu) he
      exact mapGet_wellKeyed h.2.1 hu
    · exact h

theorem emailInv_addUser (env : Env) (p : UserPayload) (s : State)
    (h : EmailInv s) : EmailInv (addUser env p s).2 := by
  rcases addUser_cases env p s with heq | ⟨hdup, heq⟩
  · rw [heq]; exact h
  · rw [heq]
    apply emailInv_insert
    · rfl
    · intro w hw he
      rw [List.any_eq_false] at hdup
      exact absurd (by simpa using he) (hdup w hw)
    · exact h

theorem emailStep_emailInv {env : Env} {s t : State} (hstep : EmailStep env s t)
    (h : EmailInv s) : EmailInv t := by
  cases hstep with
  | add_user p s => exact emailInv_addUser env p s h
  | update_user id p s hp => exact emailInv_updateUser env id p s hp h
  | delete_user id s =>
    rcases deleteUser_cases id s with heq | heq <;> rw [heq]
    · exact h
    · exact emailInv_removeKey s id h
  | request_leave uid p s =>
    rcases requestLeave_state env uid p s with heq | ⟨user, huser, hbal, heq⟩ <;>
      rw [heq]
    · exact h
    · exact emailInv_adjust env uid _ .SUBTRACT _ h
  | update_leave id p s =>
    rcases updateLeave_cases env id p s with heq | ⟨leave, hleave, heq⟩ <;>
      rw [heq]
    · exact h
    · exact h
  | delete_leave id s =>
    rcases deleteLeave_cases id s with heq | heq <;> rw [heq]
    · exact h
    · exact h
  | update_leave_status id st s =>
    rcases updateLeaveStatus_state env id st s with heq | ⟨leave, hleave, heq⟩ <;>
      rw [heq]
    · exact h
    · exact emailInv_adjust env leave.userId leave.days _ _ h

/-! ## Evaluation lemmas for single calls -/

theorem adjust_success (env : Env) (uid : String) (d : Int) (op : AdjustOp)
    (s : State) (u : User)
    (hvalid : isValidUUID uid = true)
    (hget : mapGet s.users uid = some u) (hid : u.id = uid)
    (hname : u.name ≠ "") (hemail : u.email ≠ "") (hnz : u.availableDays ≠ 0) :
    (updateUsersAvailableDays env uid d op s).2 =
      { s with users := mapInsert s.users uid
                          { u with
                            availableDays :=
                              (match op with
                               | AdjustOp.ADD => u.availableDays + d
                               | AdjustOp.SUBTRACT => u.availableDays - d),
                            updatedAt := some env.now } } := by
  have hgu : getUser s uid = Res.Ok u := getUser_eval hvalid hget
  simp only [updateUsersAvailableDays]
  split
  next hc => rw [hvalid] at hc; simp at hc
  split
  next e he => rw [hgu] at he; exact absurd he (by simp)
  next u2 hu2 =>
    rw [hgu] at hu2
    injection hu2 with h2
    subst h2
    split
    next h0 => exact absurd h0 hnz
    next h0 =>
      simp only [updateUser]
      split
      next hc => rw [hvalid] at hc; simp at hc
      split
      next hc =>
        rcases hc with hc | hc
        · exact absurd hc hname
        · exact absurd hc hemail
      split
      next u3 hu3 =>
        rw [hget] at hu3
        injection hu3 with h3
        subst h3
        rw [hid]
        rfl
      next hu3 => rw [hget] at hu3; exact absurd hu3 (by simp)

theorem adjust_unchanged_of_missing (env : Env) (uid : String) (d : Int)
    (op : AdjustOp) (s : State) (hmiss : mapGet s.users uid = none) :
    (updateUsersAvailableDays env uid d op s).2 = s := by
  rcases adjust_cases env uid d op s with heq | ⟨u, hu, -, -⟩
  · exact heq
  · rw [hmiss] at hu
    exact absurd hu (by simp)

theorem adjust_unchanged_of_zero (env : Env) (uid : String) (d : Int)
    (op : AdjustOp) (s : State) (u : User)
    (hget : mapGet s.users uid = some u) (h0 : u.availableDays = 0) :
    (updateUsersAvailableDays env uid d op s).2 = s := by
  rcases adjust_cases env uid d op s with heq | ⟨u2, hu2, hnz, -⟩
  · exact heq
  · rw [hget] at hu2
    injection hu2 with h2
    subst h2
    exact absurd h0 hnz

theorem updateLeaveStatus_eval (env : Env) (id : String) (st : LeaveStatus)
    (s : State) (l : Leave)
    (hvalid : isValidUUID id = true)
    (hget : mapGet s.leaves id = some l) (hlid : l.id = id) :
    updateLeaveStatus env id st s =
      (Res.Ok { l with status := st, updatedAt := some env.now },
       (updateUsersAvailableDays env l.userId l.days
         (if st = .REJECTED then .ADD else .SUBTRACT)
         { s with leaves := mapInsert s.leaves id
                    { l with status := st, updatedAt := some env.now } }).2) := by
  simp only [updateLeaveStatus]
  split
  next hc => rw [hvalid] at hc; simp at hc
  split
  next l2 hl2 =>
    rw [hget] at hl2
    injection hl2 with h2
    subst h2
    rw [hlid]
    by_cases hst : st = .REJECTED <;> simp [hst]
  next hl2 => rw [hget] at hl2; exact absurd hl2 (by simp)

theorem requestLeave_eval (env : Env) (userId : String) (p : LeavePayload)
    (s : State) (u : User)
    (hvalid : isValidUUID userId = true)
    (hget : mapGet s.users userId = some u)
    (hdates : p.startDate < p.endDate)
    (hy1 : yearOf p.startDate = yearOf env.wallMs)
    (hy2 : yearOf p.endDate = yearOf env.wallMs)
    (hbal : findDiffInDays p.startDate p.endDate ≤ u.availableDays)
    (hov : ((mapValues s.leaves).filter
        (fun leave => leave.userId == userId)).any
      (fun currentLeave => !(decide (p.endDate < currentLeave.startDate) ||
        decide (p.startDate > currentLeave.endDate))) = false) :
    requestLeave env userId p s =
      (Res.Ok { id := env.freshId, userId := userId,
                startDate := p.startDate, endDate := p.endDate,
                days := findDiffInDays p.startDate p.endDate,
                status := .PENDING, createdAt := env.now, updatedAt := none },
       (updateUsersAvailableDays env userId
          (findDiffInDays p.startDate p.endDate) AdjustOp.SUBTRACT
          { s with leaves := mapInsert s.leaves env.freshId
                               { id := env.freshId, userId := userId,
                                 startDate := p.startDate,
                                 endDate := p.endDate,
                                 days := findDiffInDays p.startDate p.endDate,
                                 status := .PENDING, createdAt := env.now,
                                 updatedAt := none } }).2) := by
  have hgu : getUser s userId = Res.Ok u := getUser_eval hvalid hget
  simp only [requestLeave]
  split
  next hc => rw [hvalid] at hc; simp at hc
  split
  next e he => rw [hgu] at he; exact absurd he (by simp)
  next u2 hu2 =>
    rw [hgu] at hu2
    injection hu2 with h2
    subst h2
    split
    next hc => exact absurd hc (not_le.mpr hdates)
    split
    next hc =>
      rcases hc with hc | hc
      · exact absurd hy1 hc
      · exact absurd hy2 hc
    split
    next hc => exact absurd hc (not_lt.mpr (findDiffInDays_ge_one _ _))
    split
    next hc => exact absurd hc (not_lt.mpr hbal)
    split
    next hc => rw [hov] at hc; exact absurd hc (by simp)
    next hc => rfl

/-! ## Rounding -/

theorem roundDiv_floor (n : ℕ) :
    (((n + 43200000) / 86400000 : ℕ) : ℤ) = jsRound ((n : ℚ) / 86400000) := by
  unfold jsRound
  symm
  rw [Int.floor_eq_iff]
  have h1 : 86400000 * ((n + 43200000) / 86400000) + (n + 43200000) % 86400000
      = n + 43200000 := Nat.div_add_mod _ _
  have h2 : (n + 43200000) % 86400000 < 86400000 := Nat.mod_lt _ (by norm_num)
  set k : ℕ := (n + 43200000) / 86400000 with hk
  constructor
  · rw [div_add' _ _ _ (by norm_num), le_div_iff₀ (by norm_num)]
    push_cast
    have hc : (86400000 : ℚ) * k ≤ n + 43200000 := by
      exact_mod_cast Nat.le.intro h1
    linarith
  · rw [div_add' _ _ _ (by norm_num), div_lt_iff₀ (by norm_num)]
    push_cast
    have hc : (n : ℚ) + 43200000 < 86400000 * (k + 1) := by
      have hn : n + 43200000 < 86400000 * (k + 1) := by omega
      exact_mod_cast hn
    linarith

/-! ## Claim theorems -/

/-- Claim C6: for all millisecond instants, the computed duration equals
`max 1 (round (|end - start| / oneDay))` with `oneDay = 24*60*60*1000` and
JavaScript half-up rounding; it is symmetric in argument order, and equal
dates yield 1. -/
theorem findDiffInDays_spec (s e : Int) :
    (findDiffInDays s e =
      max 1 (jsRound (((|e - s| : ℤ) : ℚ) / (24 * 60 * 60 * 1000)))) ∧
    findDiffInDays s e = findDiffInDays e s ∧
    findDiffInDays s s = 1 := by
  refine ⟨?_, ?_, ?_⟩
  · simp only [findDiffInDays]
    have habs : ((|e - s| : ℤ) : ℚ) = (((e - s).natAbs : ℕ) : ℚ) := by
      rw [Int.cast_abs, Int.cast_natAbs]
      exact Int.cast_abs.symm
    have hden : (24 * 60 * 60 * 1000 : ℚ) = 86400000 := by norm_num
    rw [habs, hden]
    exact congrArg (max 1) (roundDiv_floor ((e - s).natAbs))
  · simp only [findDiffInDays]
    rw [show (e - s).natAbs = (s - e).natAbs from by
      rw [← Int.natAbs_neg, neg_sub]]
  · simp only [findDiffInDays, sub_self, Int.natAbs_zero]
    decide

/-- Claim C1 (amended): starting from a store in which every user balance
and every stored leave day-count is non-negative, the invariant is kept by
every sequence of successful or failed calls of addUser and updateUser with
non-negative payload balances, requestLeave, updateLeave, deleteLeave, and
updateLeaveStatus with the REJECTED target. (As originally stated the claim
is false: addUser accepts a negative payload balance, and updateLeaveStatus
with a non-REJECTED target re-debits and can drive a balance negative; see
the counterexample.) -/
theorem balance_nonneg_invariant (s t : State) (htrace : GoodTrace s t)
    (h : BalanceInv s) : BalanceInv t := by
  induction htrace with
  | refl => exact h
  | tail t u env htr hstep ih => exact goodStep_balanceInv hstep ih

/-- Witness for C1: one addUser call on the empty store keeps the invariant. -/
theorem balance_nonneg_invariant_witness :
    BalanceInv (addUser envA payFive stEmpty).2 :=
  balance_nonneg_invariant stEmpty (addUser envA payFive stEmpty).2
    (GoodTrace.tail stEmpty stEmpty (addUser envA payFive stEmpty).2 envA
      (GoodTrace.refl stEmpty)
      (GoodStep.add_user payFive stEmpty (by decide)))
    (by decide)

/-- Counterexample for C1 as stated: a sequence of successful public calls
(addUser with balance 5, requestLeave for 2 days, then updateLeaveStatus
APPROVED twice) leaves the user at balance -1; and a single successful
addUser with a negative payload balance stores -5. -/
theorem balance_nonneg_counterexample :
    resOk (addUser envA payFive stEmpty).1 = true ∧
    resOk (requestLeave envL uuidA payTwoDays c1s1).1 = true ∧
    resOk (updateLeaveStatus envL uuidL .APPROVED c1s2).1 = true ∧
    resOk (updateLeaveStatus envL uuidL .APPROVED c1s3).1 = true ∧
    (mapGet c1s4.users uuidA).map User.availableDays = some (-1) ∧
    resOk (addUser envB payNeg stEmpty).1 = true ∧
    (mapGet (addUser envB payNeg stEmpty).2.users uuidB).map
      User.availableDays = some (-5) := by
  decide

/-- Claim C9 (amended): in a store with duplicate-free well-keyed user
entries and pairwise-distinct emails, every sequence of public calls keeps
emails pairwise distinct, provided each direct updateUser call's payload
email is not already the email of a different stored user. (As originally
stated the claim is false: updateUser never checks email uniqueness; see
the counterexample.) -/
theorem email_unique_invariant (s t : State) (htrace : EmailTrace s t)
    (h : EmailInv s) : EmailInv t := by
  induction htrace with
  | refl => exact h
  | tail t u env htr hstep ih => exact emailStep_emailInv hstep ih

/-- Witness for C9: one addUser call on the empty store keeps the invariant. -/
theorem email_unique_invariant_witness :
    EmailInv (addUser envA payFive stEmpty).2 :=
  email_unique_invariant stEmpty (addUser envA payFive stEmpty).2
    (EmailTrace.tail stEmpty stEmpty (addUser envA payFive stEmpty).2 envA
      (EmailTrace.refl stEmpty)
      (EmailStep.add_user payFive stEmpty))
    (by decide)

/-- Counterexample for C9 as stated: two users are added with distinct
emails, then updateUser successfully overwrites the second user's email
with the first user's email, leaving two distinct stored users with the
same email. -/
theorem email_unique_counterexample :
    resOk (addUser envA payFive stEmpty).1 = true ∧
    resOk (addUser envB payOther c9s1).1 = true ∧
    resOk (updateUser envB uuidB payTakeover c9s2).1 = true ∧
    (mapGet c9s3.users uuidA).map User.email = some "e" ∧
    (mapGet c9s3.users uuidB).map User.email = some "e" ∧
    uuidA ≠ uuidB := by
  decide

/-- Claim C8 (code evidence): getUsersLeaveRequests filters with a
predicate whose destructured userId shadows the parameter, so it returns
every stored leave; here it returns a leave owned by a different user than
the one asked about. -/
theorem getUsersLeaveRequests_shadowing :
    getUsersLeaveRequests c8st uuidC = Res.Ok [leaveOfA] ∧
    leaveOfA.userId ≠ uuidC := by
  decide

/-- Claim C2: for a stored user with balance B (well-keyed, with nonempty
name and email) and a payload passing the date-ordering, current-year,
balance and overlap checks, requestLeave returns Ok with a PENDING request
of the computed duration D, persists it under the fresh id, and leaves the
user's balance at exactly B - D. -/
theorem requestLeave_success (env : Env) (userId : String) (p : LeavePayload)
    (s : State) (u : User)
    (hvalid : isValidUUID userId = true)
    (hget : mapGet s.users userId = some u) (hid : u.id = userId)
    (hname : u.name ≠ "") (hemail : u.email ≠ "")
    (hdates : p.startDate < p.endDate)
    (hy1 : yearOf p.startDate = yearOf env.wallMs)
    (hy2 : yearOf p.endDate = yearOf env.wallMs)
    (hbal : findDiffInDays p.startDate p.endDate ≤ u.availableDays)
    (hoverlap : ∀ l ∈ mapValues s.leaves, l.userId = userId →
      p.endDate < l.startDate ∨ p.startDate > l.endDate) :
    ∃ lv : Leave, (requestLeave env userId p s).1 = Res.Ok lv ∧
      lv.status = .PENDING ∧
      lv.days = findDiffInDays p.startDate p.endDate ∧
      mapGet ((requestLeave env userId p s).2).leaves env.freshId = some lv ∧
      ∃ u2 : User,
        mapGet ((requestLeave env userId p s).2).users userId = some u2 ∧
        u2.availableDays
          = u.availableDays - findDiffInDays p.startDate p.endDate := by
  have hov : ((mapValues s.leaves).filter
      (fun leave => leave.userId == userId)).any
      (fun currentLeave => !(decide (p.endDate < currentLeave.startDate) ||
        decide (p.startDate > currentLeave.endDate))) = false := by
    rw [List.any_eq_false]
    intro l hl
    rw [List.mem_filter] at hl
    obtain ⟨hl1, hl2⟩ := hl
    rcases hoverlap l hl1 (by simpa using hl2) with hc | hc <;> simp [hc]
  have hD1 := findDiffInDays_ge_one p.startDate p.endDate
  have hnz : u.availableDays ≠ 0 := by omega
  rw [requestLeave_eval env userId p s u hvalid hget hdates hy1 hy2 hbal hov]
  dsimp only
  refine ⟨_, rfl, rfl, rfl, ?_, ?_⟩
  · rw [adjust_leaves]
    exact mapGet_insert_self _ _ _
  · rw [adjust_success env userId (findDiffInDays p.startDate p.endDate)
      AdjustOp.SUBTRACT
      { s with leaves := mapInsert s.leaves env.freshId
                           { id := env.freshId, userId := userId,
                             startDate := p.startDate, endDate := p.endDate,
                             days := findDiffInDays p.startDate p.endDate,
                             status := .PENDING, createdAt := env.now,
                             updatedAt := none } }
      u hvalid hget hid hname hemail hnz]
    exact ⟨_, mapGet_insert_self _ _ _, rfl⟩

/-- Witness for C2: a user with balance 5 requests a two-day range; the
request is stored PENDING with days 2 and the balance drops to 3. -/
theorem requestLeave_success_witness :
    ∃ lv : Leave,
      (requestLeave envL uuidA payTwoDays stUserFive).1 = Res.Ok lv ∧
      lv.status = .PENDING ∧
      lv.days = findDiffInDays payTwoDays.startDate payTwoDays.endDate ∧
      mapGet ((requestLeave envL uuidA payTwoDays stUserFive).2).leaves
        envL.freshId = some lv ∧
      ∃ u2 : User,
        mapGet ((requestLeave envL uuidA payTwoDays stUserFive).2).users
          uuidA = some u2 ∧
        u2.availableDays = userFive.availableDays
          - findDiffInDays payTwoDays.startDate payTwoDays.endDate :=
  requestLeave_success envL uuidA payTwoDays stUserFive userFive
    (by decide) (by decide) (by decide) (by decide) (by decide) (by decide)
    (by decide) (by decide) (by decide) (by decide)

/-- Claim C5: when a stored leave of the same user satisfies the inclusive
overlap condition with the proposed range (including the shared-boundary
case), and the earlier checks pass, requestLeave fails with the overlap
error and the state is unchanged, so nothing is persisted. -/
theorem requestLeave_overlap_rejected (env : Env) (userId : String)
    (p : LeavePayload) (s : State) (u : User) (l : Leave)
    (hvalid : isValidUUID userId = true)
    (hget : mapGet s.users userId = some u)
    (hl : l ∈ mapValues s.leaves) (hluid : l.userId = userId)
    (hdates : p.startDate < p.endDate)
    (hy1 : yearOf p.startDate = yearOf env.wallMs)
    (hy2 : yearOf p.endDate = yearOf env.wallMs)
    (hbal : findDiffInDays p.startDate p.endDate ≤ u.availableDays)
    (hov : ¬(l.endDate < p.startDate ∨ l.startDate > p.endDate)) :
    requestLeave env userId p s =
      (Res.Err "The chosen leave period overlaps with an existing leave.",
       s) := by
  push_neg at hov
  obtain ⟨hov1, hov2⟩ := hov
  have hgu : getUser s userId = Res.Ok u := getUser_eval hvalid hget
  simp only [requestLeave]
  split
  next hc => rw [hvalid] at hc; simp at hc
  split
  next e he => rw [hgu] at he; exact absurd he (by simp)
  next u2 hu2 =>
    rw [hgu] at hu2
    injection hu2 with h2
    subst h2
    split
    next hc => exact absurd hc (not_le.mpr hdates)
    split
    next hc =>
      rcases hc with hc | hc
      · exact absurd hy1 hc
      · exact absurd hy2 hc
    split
    next hc => exact absurd hc (not_lt.mpr (findDiffInDays_ge_one _ _))
    split
    next hc => exact absurd hc (not_lt.mpr hbal)
    split
    next hc => rfl
    next hc =>
      exfalso
      apply hc
      rw [List.any_eq_true]
      refine ⟨l, ?_, ?_⟩
      · rw [List.mem_filter]
        exact ⟨hl, by simp [hluid]⟩
      · simp [not_lt.mpr hov1, not_lt.mpr hov2]

/-- Witness for C5: with an existing leave over [jan1, jan1+2d], a request
for [jan1+2d, jan1+3d] (shared boundary) fails with the overlap error and
changes nothing. -/
theorem requestLeave_overlap_rejected_witness :
    requestLeave envL uuidA payBoundary stOverlap =
      (Res.Err "The chosen leave period overlaps with an existing leave.",
       stOverlap) :=
  requestLeave_overlap_rejected envL uuidA payBoundary stOverlap userFive
    leaveTwo (by decide) (by decide) (by decide) (by decide) (by decide)
    (by decide) (by decide) (by decide) (by decide)

/-- Claim C7: when the computed duration exceeds the user's balance and the
earlier checks pass, requestLeave fails with the insufficient-balance error
and the state (hence the balance) is unchanged. -/
theorem requestLeave_insufficient_balance (env : Env) (userId : String)
    (p : LeavePayload) (s : State) (u : User)
    (hvalid : isValidUUID userId = true)
    (hget : mapGet s.users userId = some u)
    (hdates : p.startDate < p.endDate)
    (hy1 : yearOf p.startDate = yearOf env.wallMs)
    (hy2 : yearOf p.endDate = yearOf env.wallMs)
    (hbal : u.availableDays < findDiffInDays p.startDate p.endDate) :
    requestLeave env userId p s =
      (Res.Err "You are exceeding your available days for leave.", s) := by
  have hgu : getUser s userId = Res.Ok u := getUser_eval hvalid hget
  simp only [requestLeave]
  split
  next hc => rw [hvalid] at hc; simp at hc
  split
  next e he => rw [hgu] at he; exact absurd he (by simp)
  next u2 hu2 =>
    rw [hgu] at hu2
    injection hu2 with h2
    subst h2
    split
    next hc => exact absurd hc (not_le.mpr hdates)
    split
    next hc =>
      rcases hc with hc | hc
      · exact absurd hy1 hc
      · exact absurd hy2 hc
    split
    next hc => exact absurd hc (not_lt.mpr (findDiffInDays_ge_one _ _))
    rfl

/-- Witness for C7: a user with balance 5 asks for a ten-day range and gets
the insufficient-balance error with the state unchanged. -/
theorem requestLeave_insufficient_balance_witness :
    requestLeave envL uuidA payTenDays stUserFive =
      (Res.Err "You are exceeding your available days for leave.",
       stUserFive) :=
  requestLeave_insufficient_balance envL uuidA payTenDays stUserFive userFive
    (by decide) (by decide) (by decide) (by decide) (by decide) (by decide)

/-- Claim C3 (amended): rejecting a stored request credits its days back to
the owner, provided the owner exists in the store, is well-keyed, has
nonempty name and email, and has a nonzero current balance. (As originally
stated the claim is false: when the owner's balance is exactly zero after
the debit — e.g. when the request consumed the whole balance — the credit
silently fails and the pre-creation balance is not restored; see the
counterexample.) -/
theorem reject_credits_days (env : Env) (id : String) (s : State) (l : Leave)
    (u : User)
    (hvalid : isValidUUID id = true)
    (hget : mapGet s.leaves id = some l) (hlid : l.id = id)
    (huvalid : isValidUUID l.userId = true)
    (hu : mapGet s.users l.userId = some u) (huid : u.id = l.userId)
    (hname : u.name ≠ "") (hemail : u.email ≠ "")
    (hnz : u.availableDays ≠ 0) :
    (updateLeaveStatus env id .REJECTED s).1 =
      Res.Ok { l with status := .REJECTED, updatedAt := some env.now } ∧
    mapGet ((updateLeaveStatus env id .REJECTED s).2).users l.userId =
      some { u with availableDays := u.availableDays + l.days,
                    updatedAt := some env.now } := by
  rw [updateLeaveStatus_eval env id .REJECTED s l hvalid hget hlid]
  constructor
  · rfl
  · dsimp only
    rw [if_pos rfl]
    rw [adjust_success env l.userId l.days AdjustOp.ADD
      { s with leaves := mapInsert s.leaves id
                           { l with status := LeaveStatus.REJECTED,
                                    updatedAt := some env.now } }
      u huvalid hu huid hname hemail hnz]
    exact mapGet_insert_self _ _ _

/-- Witness for C3: rejecting a stored two-day request of a user with
balance 5 returns Ok and credits the balance to 7. -/
theorem reject_credits_days_witness :
    (updateLeaveStatus envL uuidL .REJECTED stOverlap).1 =
      Res.Ok { leaveTwo with status := .REJECTED,
                             updatedAt := some envL.now } ∧
    mapGet ((updateLeaveStatus envL uuidL .REJECTED stOverlap).2).users
        leaveTwo.userId =
      some { userFive with
             availableDays := userFive.availableDays + leaveTwo.days,
             updatedAt := some envL.now } :=
  reject_credits_days envL uuidL stOverlap leaveTwo userFive
    (by decide) (by decide) (by decide) (by decide) (by decide) (by decide)
    (by decide) (by decide) (by decide)

/-- Counterexample for C3 as stated: a user with balance 2 creates a
two-day request (balance drops to 0); rejecting it returns Ok but the
credit silently fails on the zero balance, leaving 0 instead of the
pre-creation balance 2. -/
theorem reject_credits_days_counterexample :
    resOk (addUser envA payTwo stEmpty).1 = true ∧
    resOk (requestLeave envL uuidA payTwoDays c3s1).1 = true ∧
    resOk (updateLeaveStatus envL uuidL .REJECTED c3s2).1 = true ∧
    (mapGet c3s2.users uuidA).map User.availableDays = some 0 ∧
    (mapGet c3s3.users uuidA).map User.availableDays = some 0 ∧
    ((0 : Int) ≠ 2) := by
  decide

/-- One non-REJECTED status update: the status is overwritten and the
owner's balance is debited by the stored day-count again. -/
theorem updateLeaveStatus_debit (env : Env) (id : String) (st : LeaveStatus)
    (s : State) (l : Leave) (u : User)
    (hvalid : isValidUUID id = true)
    (hget : mapGet s.leaves id = some l) (hlid : l.id = id)
    (hst : st ≠ .REJECTED)
    (huvalid : isValidUUID l.userId = true)
    (hu : mapGet s.users l.userId = some u) (huid : u.id = l.userId)
    (hname : u.name ≠ "") (hemail : u.email ≠ "")
    (hnz : u.availableDays ≠ 0) :
    (updateLeaveStatus env id st s).2 =
      { users := mapInsert s.users l.userId
          { u with availableDays := u.availableDays - l.days,
                   updatedAt := some env.now },
        leaves := mapInsert s.leaves id
          { l with status := st, updatedAt := some env.now } } := by
  have e1 := updateLeaveStatus_eval env id st s l hvalid hget hlid
  rw [if_neg hst] at e1
  rw [e1]
  dsimp only
  rw [adjust_success env l.userId l.days AdjustOp.SUBTRACT
    { s with leaves := mapInsert s.leaves id
                         { l with status := st,
                                  updatedAt := some env.now } }
    u huvalid hu huid hname hemail hnz]

/-- Claim C4 (amended): with the owner present, well-keyed, with nonempty
name and email, each updateLeaveStatus call with a non-REJECTED target
debits the stored days again, so two consecutive such calls reduce the
owner's balance by 2*days — provided the balance before each call is
nonzero. (As originally stated the claim is false: when a debit lands the
balance exactly on zero, the next adjustment silently fails; see the
counterexample.) -/
theorem double_debit (env1 env2 : Env) (id : String) (st1 st2 : LeaveStatus)
    (s : State) (l : Leave) (u : User)
    (hvalid : isValidUUID id = true)
    (hget : mapGet s.leaves id = some l) (hlid : l.id = id)
    (huvalid : isValidUUID l.userId = true)
    (hu : mapGet s.users l.userId = some u) (huid : u.id = l.userId)
    (hname : u.name ≠ "") (hemail : u.email ≠ "")
    (hst1 : st1 ≠ .REJECTED) (hst2 : st2 ≠ .REJECTED)
    (hnz1 : u.availableDays ≠ 0) (hnz2 : u.availableDays - l.days ≠ 0) :
    ∃ u2 : User,
      mapGet ((updateLeaveStatus env2 id st2
        (updateLeaveStatus env1 id st1 s).2).2).users l.userId = some u2 ∧
      u2.availableDays = u.availableDays - 2 * l.days := by
  rw [updateLeaveStatus_debit env1 id st1 s l u hvalid hget hlid hst1
    huvalid hu huid hname hemail hnz1]
  rw [updateLeaveStatus_debit env2 id st2 _
    { l with status := st1, updatedAt := some env1.now }
    { u with availableDays := u.availableDays - l.days,
             updatedAt := some env1.now }
    hvalid (mapGet_insert_self _ _ _) hlid hst2 huvalid
    (mapGet_insert_self _ _ _) huid hname hemail hnz2]
  refine ⟨_, mapGet_insert_self _ _ _, ?_⟩
  show u.availableDays - l.days - l.days = u.availableDays - 2 * l.days
  ring

/-- Witness for C4: a user with balance 5 owning a stored two-day request;
approving it twice leaves the balance at 5 - 2*2 = 1. -/
theorem double_debit_witness :
    ∃ u2 : User,
      mapGet ((updateLeaveStatus envB uuidL .APPROVED
        (updateLeaveStatus envA uuidL .APPROVED stOverlap).2).2).users
        leaveTwo.userId = some u2 ∧
      u2.availableDays = userFive.availableDays - 2 * leaveTwo.days :=
  double_debit envA envB uuidL .APPROVED .APPROVED stOverlap leaveTwo
    userFive (by decide) (by decide) (by decide) (by decide) (by decide)
    (by decide) (by decide) (by decide) (by decide) (by decide) (by decide)
    (by decide)

/-- Counterexample for C4 as stated: a user with balance 2 owns a stored
two-day request; the first APPROVED call debits to 0, the second silently
fails on the zero balance, so the total reduction is 2, not 2*2 = 4. -/
theorem double_debit_counterexample :
    resOk (updateLeaveStatus envL uuidL .APPROVED c4s0).1 = true ∧
    resOk (updateLeaveStatus envL uuidL .APPROVED c4s1).1 = true ∧
    (mapGet c4s2.users uuidA).map User.availableDays = some 0 ∧
    userTwo.availableDays - 2 * leaveTwo.days = -2 ∧
    ((0 : Int) ≠ -2) := by
  decide

/-- Claim C10: for a stored request whose owner is absent from the user
store or has balance exactly zero, updateLeaveStatus still returns Ok with
the status overwritten and the updated request persisted, while the user
store is left completely unchanged — the failed balance adjustment is
discarded and the status write is not rolled back. -/
theorem updateLeaveStatus_orphan_ok (env : Env) (id : String)
    (st : LeaveStatus) (s : State) (l : Leave)
    (hvalid : isValidUUID id = true)
    (hget : mapGet s.leaves id = some l) (hlid : l.id = id)
    (horph : mapGet s.users l.userId = none ∨
      ∃ u, mapGet s.users l.userId = some u ∧ u.availableDays = 0) :
    updateLeaveStatus env id st s =
      (Res.Ok { l with status := st, updatedAt := some env.now },
       { s with leaves := mapInsert s.leaves id
                  { l with status := st, updatedAt := some env.now } }) := by
  rw [updateLeaveStatus_eval env id st s l hvalid hget hlid]
  refine congrArg (Prod.mk _) ?_
  rcases horph with hmiss | ⟨u, hu, h0⟩
  · exact adjust_unchanged_of_missing _ _ _ _ _ hmiss
  · exact adjust_unchanged_of_zero _ _ _ _ _ u hu h0

/-- Witness for C10: approving a stored request whose owner is absent from
the user store returns Ok, persists the APPROVED request, and leaves the
(empty) user store untouched. -/
theorem updateLeaveStatus_orphan_ok_witness :
    updateLeaveStatus envL uuidL .APPROVED c8st =
      (Res.Ok { leaveOfA with status := .APPROVED,
                              updatedAt := some envL.now },
       { c8st with leaves := mapInsert c8st.leaves uuidL
                               { leaveOfA with
                                 status := .APPROVED,
                                 updatedAt := some envL.now } }) :=
  updateLeaveStatus_orphan_ok envL uuidL .APPROVED c8st leaveOfA
    (by decide) (by decide) (by decide) (Or.inl (by decide))

end LeaveCanister
